import Mathlib

/-!
Verification of the p2p-chatter core against its specification.

Shallow embedding of the relevant modules:
- src/src/encryptionEnhanced.ts (EnhancedEncryptionManager, dual-layer encryption)
- src/src/messageStore.ts (in-memory MessageStore)
- src/unnamed/part_003 (EnhancedP2PNetwork)

Conventions of the embedding:
- byte strings (hex strings, Buffers, utf8 plaintext) are modelled as List Nat;
- the aes-256-gcm primitive from the Node crypto library is not part of this
  repository; it is idealized as a stream cipher with a linear authentication
  tag (mask with a key/nonce derived keystream, tag = xor-fold of the
  ciphertext blended with a key/nonce pad).  This keeps the two properties the
  code relies on: decryption inverts encryption under the same key and nonce,
  and any single-bit change of ciphertext or tag flips the tag check;
- the keyed-hash key derivation (createHmac over the shared secret with the
  label encryption_key) is idealized as an injective labelling of the secret;
- JSON.stringify/JSON.parse of the message-layer record is modelled as a
  length-prefixed encoding with a partial inverse;
- random values (nonce, iv, uuid, Date.now) are explicit parameters;
- a try/catch whose catch returns a failure record is modelled with Option.
-/

namespace P2PChatter

/-! ### Idealized aes-256-gcm primitive (Node crypto collaborator) -/

/-- Keystream of a given length derived from key and nonce (idealized cipher). -/
def keystream (key nonce : List Nat) (len : Nat) : List Nat :=
  (List.range len).map
    (fun i => (key.foldl (fun a b => a * 31 + b) 7 + nonce.foldl (fun a b => a * 37 + b) 11 + i) % 256)

/-- Key/nonce pad entering the authentication tag (idealized GHASH offset). -/
def gcmPad (key nonce : List Nat) : Nat :=
  key.foldl (fun a b => a * 41 + b) 13 + nonce.foldl (fun a b => a * 43 + b) 17

/-- Authentication tag: xor-fold of the ciphertext, blended with the pad.
The xor-fold mirrors the linearity of GHASH in the ciphertext, which is what
makes single-bit changes detectable. -/
def gcmTag (key nonce ct : List Nat) : Nat :=
  ct.foldr (fun b t => b ^^^ t) (gcmPad key nonce)

/-- Mask a byte list with the keystream (encryption and decryption direction). -/
def gcmMask (key nonce data : List Nat) : List Nat :=
  List.zipWith (fun a b => a ^^^ b) data (keystream key nonce data.length)

/-- Idealized aes-256-gcm encryption: ciphertext and authentication tag. -/
def gcmEnc (key nonce pt : List Nat) : List Nat × Nat :=
  let ct := gcmMask key nonce pt
  (ct, gcmTag key nonce ct)

/-- Idealized aes-256-gcm decryption: checks the tag, then unmasks.  A tag
mismatch is the thrown error of decipher.final, surfaced as none. -/
def gcmDec (key nonce ct : List Nat) (tag : Nat) : Option (List Nat) :=
  if gcmTag key nonce ct = tag then some (gcmMask key nonce ct) else none

/-- Key derivation of encryptMessageLayer/decryptMessageLayer: createHmac over
the shared secret with the label encryption_key, idealized as an injective
labelling of the secret. -/
def deriveKey (sharedSecret : List Nat) : List Nat :=
  101 :: sharedSecret

/-! ### encryptionEnhanced.ts data model -/

/-- The messageLayer record of DualLayerEncryptedMessage. -/
structure MessageLayer where
  ciphertext : List Nat
  nonce : List Nat
  authTag : Nat
deriving DecidableEq, Repr

/-- The packetLayer record of DualLayerEncryptedMessage. -/
structure PacketLayer where
  ciphertext : List Nat
  iv : List Nat
  authTag : Nat
deriving DecidableEq, Repr

/-- DualLayerEncryptedMessage of encryptionEnhanced.ts. -/
structure DualLayerEncryptedMessage where
  packetId : Nat
  messageLayer : MessageLayer
  packetLayer : PacketLayer
  senderPublicKey : List Nat
  timestamp : Nat
deriving DecidableEq, Repr

/-- DecryptedMessageResult of encryptionEnhanced.ts. -/
structure DecryptedMessageResult where
  plaintext : List Nat
  isValid : Bool
  timestamp : Nat
  senderPublicKey : List Nat
deriving DecidableEq, Repr

/-- JSON.stringify of the messageLayer record, modelled as a length-prefixed
injective encoding. -/
def encodeMessageLayer (m : MessageLayer) : List Nat :=
  m.ciphertext.length :: (m.ciphertext ++ (m.nonce.length :: (m.nonce ++ [m.authTag])))

/-- JSON.parse of the intermediate layer, the partial inverse of
encodeMessageLayer; a malformed input is the thrown parse error, surfaced as
none. -/
def decodeMessageLayer : List Nat → Option MessageLayer
  | [] => none
  | n :: rest =>
    if n ≤ rest.length then
      match rest.drop n with
      | [] => none
      | k :: rest2 =>
        if k ≤ rest2.length then
          match rest2.drop k with
          | [tag] => some ⟨rest.take n, rest2.take k, tag⟩
          | _ => none
        else none
    else none

/-! ### EnhancedEncryptionManager operations.  The packetKey instance field is
an explicit argument; nonce, iv, packetId and timestamp stand for the random
bytes, the random uuid and Date.now of the source. -/

/-- encryptMessageLayer: derive the key from the shared secret, encrypt with
the idealized aes-256-gcm under the fresh nonce. -/
def encryptMessageLayer (plaintext sharedSecret nonce : List Nat) : MessageLayer :=
  let key := deriveKey sharedSecret
  let e := gcmEnc key nonce plaintext
  ⟨e.1, nonce, e.2⟩

/-- decryptMessageLayer: derive the key from the shared secret, decrypt. -/
def decryptMessageLayer (ciphertext nonce : List Nat) (authTag : Nat)
    (sharedSecret : List Nat) : Option (List Nat) :=
  gcmDec (deriveKey sharedSecret) nonce ciphertext authTag

/-- encryptPacketLayer: idealized aes-256-gcm under the packet key and iv. -/
def encryptPacketLayer (data packetKey iv : List Nat) : PacketLayer :=
  let e := gcmEnc packetKey iv data
  ⟨e.1, iv, e.2⟩

/-- decryptPacketLayer: idealized aes-256-gcm decryption under the packet key. -/
def decryptPacketLayer (ciphertext iv : List Nat) (authTag : Nat)
    (packetKey : List Nat) : Option (List Nat) :=
  gcmDec packetKey iv ciphertext authTag

/-- encryptMessageDualLayer: message layer first, its encoding sealed under the
packet layer; the bundle also carries the messageLayer record itself, exactly
as the source returns it. -/
def encryptMessageDualLayer (plaintext sharedSecret senderPublicKey packetKey : List Nat)
    (packetId : Nat) (nonce iv : List Nat) (timestamp : Nat) : DualLayerEncryptedMessage :=
  let messageLayer := encryptMessageLayer plaintext sharedSecret nonce
  let messageLayerJson := encodeMessageLayer messageLayer
  let packetLayer := encryptPacketLayer messageLayerJson packetKey iv
  ⟨packetId, messageLayer, packetLayer, senderPublicKey, timestamp⟩

/-- decryptMessageDualLayer: packet layer first, then parse, then message
layer; every failure is caught and yields empty plaintext with isValid false.
Note the source reads only encrypted.packetLayer (and the metadata fields): the
messageLayer field of the bundle is never consulted. -/
def decryptMessageDualLayer (encrypted : DualLayerEncryptedMessage)
    (sharedSecret packetKey : List Nat) : DecryptedMessageResult :=
  match decryptPacketLayer encrypted.packetLayer.ciphertext encrypted.packetLayer.iv
      encrypted.packetLayer.authTag packetKey with
  | none => ⟨[], false, encrypted.timestamp, encrypted.senderPublicKey⟩
  | some messageLayerJson =>
    match decodeMessageLayer messageLayerJson with
    | none => ⟨[], false, encrypted.timestamp, encrypted.senderPublicKey⟩
    | some messageLayer =>
      match decryptMessageLayer messageLayer.ciphertext messageLayer.nonce
          messageLayer.authTag sharedSecret with
      | none => ⟨[], false, encrypted.timestamp, encrypted.senderPublicKey⟩
      | some plaintext => ⟨plaintext, true, encrypted.timestamp, encrypted.senderPublicKey⟩

/-- Plaintext recovery from a bundle using only the shared secret: apply
decryptMessageLayer to the messageLayer record the bundle carries in the
clear.  No packet key enters this computation. -/
def decryptWithSharedSecretOnly (encrypted : DualLayerEncryptedMessage)
    (sharedSecret : List Nat) : Option (List Nat) :=
  decryptMessageLayer encrypted.messageLayer.ciphertext encrypted.messageLayer.nonce
    encrypted.messageLayer.authTag sharedSecret

/-- Flip bit j of the byte at position i (xor with a power of two). -/
def flipBit (l : List Nat) (i j : Nat) : List Nat :=
  l.set i (l.getD i 0 ^^^ 2 ^ j)

/-! ### messageStore.ts data model (in-memory implementation).  The three maps
of the class are lists in insertion order; the Message objects shared between
the messages map and the conversationMessages arrays are stored once in
messages, with conversationMessages holding their ids. -/

/-- The deliveryStatus union of messageStore.ts. -/
inductive DeliveryStatus
  | pending
  | sent
  | delivered
  | failed
deriving DecidableEq, Repr

/-- Message of messageStore.ts. -/
structure Message where
  id : String
  conversationId : String
  senderId : String
  receiverId : String
  content : String
  contentHash : String
  timestamp : Nat
  isRead : Bool
  deliveryStatus : DeliveryStatus
  encryptedContent : String
  nonce : String
deriving DecidableEq, Repr

/-- Conversation of messageStore.ts. -/
structure Conversation where
  id : String
  userId : String
  contactId : String
  lastMessageTime : Option Nat
  createdAt : Nat
deriving DecidableEq, Repr

/-- MessageStore state: the messages map, the conversations map and the
conversationMessages map (ids of the shared Message objects). -/
structure MessageStore where
  messages : List Message
  conversations : List Conversation
  conversationMessages : List (String × List String)
deriving DecidableEq, Repr

/-- A fresh MessageStore. -/
def emptyStore : MessageStore := ⟨[], [], []⟩

/-- Lookup in the messages map. -/
def MessageStore.findMessage (s : MessageStore) (messageId : String) : Option Message :=
  s.messages.find? (fun m => m.id == messageId)

/-- markAsRead: mutate the found Message object in place; no-op when the id is
absent (the map update touches exactly the entry with the given id). -/
def MessageStore.markAsRead (s : MessageStore) (messageId : String) : MessageStore :=
  match s.messages.find? (fun m => m.id == messageId) with
  | some _ =>
    { s with messages :=
        s.messages.map (fun m => if m.id == messageId then { m with isRead := true } else m) }
  | none => s

/-- updateDeliveryStatus: set the status of the found Message object
unconditionally; no-op when the id is absent. -/
def MessageStore.updateDeliveryStatus (s : MessageStore) (messageId : String)
    (status : DeliveryStatus) : MessageStore :=
  match s.messages.find? (fun m => m.id == messageId) with
  | some _ =>
    let updated := s.messages.map
      (fun m => if m.id == messageId then { m with deliveryStatus := status } else m)
    { s with messages := updated }
  | none => s

/-- getConversationId: scan the conversations map in insertion order for an
entry matching the pair in either orientation. -/
def MessageStore.getConversationId (s : MessageStore) (userId contactId : String) :
    Option String :=
  (s.conversations.find?
    (fun conv => (conv.userId == userId && conv.contactId == contactId) ||
                 (conv.userId == contactId && conv.contactId == userId))).map (fun c => c.id)

/-- getOrCreateConversation: return the existing id, or create the entry with
id userId:contactId in argument order; now stands for Date.now. -/
def MessageStore.getOrCreateConversation (s : MessageStore) (userId contactId : String)
    (now : Nat) : String × MessageStore :=
  match s.getConversationId userId contactId with
  | some conversationId => (conversationId, s)
  | none =>
    let id := userId ++ ":" ++ contactId
    (id, { s with
           conversations := s.conversations ++ [⟨id, userId, contactId, none, now⟩],
           conversationMessages := s.conversationMessages ++ [(id, [])] })

/-! ### EnhancedP2PNetwork of src/unnamed/part_003.  Emitted events are
returned explicitly; uuids and Date.now are parameters. -/

/-- The peer status union of part_003. -/
inductive PeerStatus
  | online
  | offline
  | idle
deriving DecidableEq, Repr

/-- PeerInfo of part_003 (ip, port, version omitted: never read by the
operations under verification). -/
structure PeerInfo where
  id : String
  publicKey : String
  status : PeerStatus
  lastSeen : Nat
deriving DecidableEq, Repr

/-- The NetworkMessage type union of part_003. -/
inductive MsgType
  | direct
  | group
  | broadcast
  | query
deriving DecidableEq, Repr

/-- NetworkMessage of part_003. -/
structure NetworkMessage where
  id : String
  type : MsgType
  «from» : String
  «to» : String
  content : String
  timestamp : Nat
  ttl : Nat
  encrypted : Bool
  deliveryId : Option String
deriving DecidableEq, Repr

/-- A deliveryTracking record of part_003. -/
structure Tracking where
  attempts : Nat
  lastAttempt : Nat
deriving DecidableEq, Repr

/-- Events the network emits. -/
inductive NetEvent
  | messageQueued (m : NetworkMessage)
  | messageFailed (messageId : String)
  | messageDelivered (messageId deliveryId : String)
  | messageReceived (m : NetworkMessage)
  | messageRelay (m : NetworkMessage) («to» : String)
deriving DecidableEq, Repr

/-- Whether an event is a relay emission. -/
def NetEvent.isRelay : NetEvent → Bool
  | .messageRelay _ _ => true
  | _ => false

/-- EnhancedP2PNetwork state: peers, messageQueue and deliveryTracking maps in
insertion order, plus the constructor parameters. -/
structure EnhancedP2PNetwork where
  myPeerId : String
  maxRetries : Nat
  peers : List PeerInfo
  messageQueue : List (String × NetworkMessage)
  deliveryTracking : List (String × Tracking)
deriving DecidableEq, Repr

/-- getOnlinePeers: peers whose status is online. -/
def EnhancedP2PNetwork.getOnlinePeers (net : EnhancedP2PNetwork) : List PeerInfo :=
  net.peers.filter (fun p => p.status == .online)

/-- The deliveryTracking map mutation of attemptDelivery: the entry keyed by
the deliveryId gets its attempts incremented and lastAttempt set to now. -/
def updateTracking (l : List (String × Tracking)) (d : String) (now : Nat) :
    List (String × Tracking) :=
  l.map (fun e => if e.1 == d then (e.1, ⟨e.2.attempts + 1, now⟩) else e)

/-- attemptDelivery: missing tracking returns immediately; an exhausted record
(attempts at or above maxRetries) emits the failure event and changes nothing;
otherwise the attempt counter is incremented, lastAttempt set, and the
simulated delivery event emitted. -/
def EnhancedP2PNetwork.attemptDelivery (net : EnhancedP2PNetwork)
    (message : NetworkMessage) (now : Nat) : EnhancedP2PNetwork × List NetEvent :=
  match message.deliveryId with
  | none => (net, [])
  | some deliveryId =>
    match net.deliveryTracking.find? (fun e => e.1 == deliveryId) with
    | none => (net, [])
    | some (_, tracking) =>
      if net.maxRetries ≤ tracking.attempts then
        (net, [.messageFailed message.id])
      else
        ({ net with deliveryTracking := updateTracking net.deliveryTracking deliveryId now },
         [.messageDelivered message.id deliveryId])

/-- sendDirectMessage: build the message, queue it, create a fresh tracking
record with zero attempts, emit the queued event and immediately attempt
delivery.  The peers map is never consulted. -/
def EnhancedP2PNetwork.sendDirectMessage (net : EnhancedP2PNetwork)
    (toPeerId content : String) (encrypted : Bool) (messageId deliveryId : String)
    (now : Nat) : NetworkMessage × EnhancedP2PNetwork × List NetEvent :=
  let message : NetworkMessage :=
    ⟨messageId, .direct, net.myPeerId, toPeerId, content, now, 0, encrypted, some deliveryId⟩
  let net1 : EnhancedP2PNetwork :=
    { net with
      messageQueue := net.messageQueue ++ [(messageId, message)],
      deliveryTracking := net.deliveryTracking ++ [(deliveryId, ⟨0, 0⟩)] }
  let step := net1.attemptDelivery message now
  (message, step.1, .messageQueued message :: step.2)

/-- relayBroadcast: copy the envelope with ttl decremented and emit one relay
event per online peer other than the original sender. -/
def EnhancedP2PNetwork.relayBroadcast (net : EnhancedP2PNetwork)
    (message : NetworkMessage) : List NetEvent :=
  let relayedMessage : NetworkMessage := { message with ttl := message.ttl - 1 }
  (net.getOnlinePeers.filter (fun p => p.id != message.«from»)).map
    (fun p => .messageRelay relayedMessage p.id)

/-- receiveMessage: drop envelopes neither addressed to us nor broadcast;
otherwise emit the received event, and relay when the envelope is a broadcast
whose incoming ttl is positive. -/
def EnhancedP2PNetwork.receiveMessage (net : EnhancedP2PNetwork)
    (message : NetworkMessage) : List NetEvent :=
  if message.«to» != net.myPeerId && message.type != .broadcast then []
  else
    .messageReceived message ::
      (if message.type == .broadcast && decide (0 < message.ttl) then
        net.relayBroadcast message
      else [])

/-- Fold a list of attemptDelivery calls over the network state. -/
def EnhancedP2PNetwork.runAttempts (net : EnhancedP2PNetwork)
    (calls : List (NetworkMessage × Nat)) : EnhancedP2PNetwork :=
  calls.foldl (fun n c => (n.attemptDelivery c.1 c.2).1) net

/-- One relay step: some node, on receiving m, emitted a relay of m2 to
someone. -/
def RelayStep (m m2 : NetworkMessage) : Prop :=
  ∃ (net : EnhancedP2PNetwork) (tgt : String),
    NetEvent.messageRelay m2 tgt ∈ net.receiveMessage m

/-- A chain of k successive relay steps. -/
def RelayChain : Nat → NetworkMessage → NetworkMessage → Prop
  | 0, m, m2 => m = m2
  | k + 1, m, m2 => ∃ mid, RelayStep m mid ∧ RelayChain k mid m2

/-! ## Supporting lemmas -/

theorem keystream_length (key nonce : List Nat) (len : Nat) :
    (keystream key nonce len).length = len := by
  simp [keystream]

theorem zipWith_xor_cancel (pt : List Nat) : ∀ ks : List Nat, pt.length ≤ ks.length →
    List.zipWith (fun a b => a ^^^ b) (List.zipWith (fun a b => a ^^^ b) pt ks) ks = pt := by
  induction pt with
  | nil => intro ks _; simp
  | cons p pt ih =>
    intro ks h
    cases ks with
    | nil => simp at h
    | cons k ks =>
      simp only [List.zipWith_cons_cons]
      rw [Nat.xor_cancel_right, ih ks (by simpa using h)]

theorem gcmMask_length (key nonce data : List Nat) :
    (gcmMask key nonce data).length = data.length := by
  simp [gcmMask, keystream_length]

theorem gcmMask_gcmMask (key nonce pt : List Nat) :
    gcmMask key nonce (gcmMask key nonce pt) = pt := by
  have hlen : (gcmMask key nonce pt).length = pt.length := gcmMask_length key nonce pt
  unfold gcmMask
  rw [show (List.zipWith (fun a b => a ^^^ b) pt (keystream key nonce pt.length)).length
        = pt.length from by simpa [gcmMask] using hlen]
  exact zipWith_xor_cancel pt _ (by simp [keystream_length])

theorem gcmDec_gcmEnc (key nonce pt : List Nat) :
    gcmDec key nonce (gcmEnc key nonce pt).1 (gcmEnc key nonce pt).2 = some pt := by
  simp [gcmEnc, gcmDec, gcmMask_gcmMask]

theorem decode_encode (m : MessageLayer) :
    decodeMessageLayer (encodeMessageLayer m) = some m := by
  obtain ⟨ct, nonce, tag⟩ := m
  simp [encodeMessageLayer, decodeMessageLayer, List.drop_left, List.take_left]

/-- Xor-folding a list with one element flipped by m flips the fold by m. -/
theorem foldr_xor_flip (l : List Nat) : ∀ (i : Nat) (b m : Nat), i < l.length →
    (l.set i (l.getD i 0 ^^^ m)).foldr (fun x t => x ^^^ t) b =
      l.foldr (fun x t => x ^^^ t) b ^^^ m := by
  induction l with
  | nil => intro i b m h; simp at h
  | cons x l ih =>
    intro i b m h
    cases i with
    | zero =>
      simp only [List.getD_cons_zero, List.set_cons_zero, List.foldr_cons]
      rw [Nat.xor_assoc, Nat.xor_comm m, ← Nat.xor_assoc]
    | succ i =>
      simp only [List.getD_cons_succ, List.set_cons_succ, List.foldr_cons]
      rw [ih i b m (by simpa using h), Nat.xor_assoc]

theorem gcmTag_flipBit (key nonce ct : List Nat) (i j : Nat) (h : i < ct.length) :
    gcmTag key nonce (flipBit ct i j) = gcmTag key nonce ct ^^^ 2 ^ j := by
  unfold gcmTag flipBit
  exact foldr_xor_flip ct i (gcmPad key nonce) (2 ^ j) h

theorem xor_two_pow_ne (t j : Nat) : t ^^^ 2 ^ j ≠ t := by
  intro h
  have h0 : (t ^^^ 2 ^ j) ^^^ t = 0 := by rw [h, Nat.xor_self]
  rw [Nat.xor_comm t (2 ^ j), Nat.xor_cancel_right] at h0
  exact (Nat.pos_pow_of_pos j (by norm_num)).ne' h0

/-! ## Claims C1 to C4: the dual-layer encryption protocol -/

/-- C1.  Dual-layer round-trip: decrypting the sealed payload produced by
encryptMessageDualLayer under the same shared secret and the same packet key
returns the original plaintext with isValid true (and the metadata of the
bundle). -/
theorem dual_layer_roundtrip (plaintext sharedSecret senderPublicKey packetKey : List Nat)
    (packetId : Nat) (nonce iv : List Nat) (timestamp : Nat) :
    decryptMessageDualLayer
      (encryptMessageDualLayer plaintext sharedSecret senderPublicKey packetKey
        packetId nonce iv timestamp)
      sharedSecret packetKey =
      ⟨plaintext, true, timestamp, senderPublicKey⟩ := by
  simp [encryptMessageDualLayer, decryptMessageDualLayer, encryptPacketLayer,
    decryptPacketLayer, encryptMessageLayer, decryptMessageLayer, gcmDec_gcmEnc,
    decode_encode]

/-- C2 counterexample.  Flipping a bit of the messageLayer ciphertext of the
bundle leaves decryptMessageDualLayer fully successful: the modified bundle
still decrypts to the original plaintext with isValid true, because decryption
reads only the copy of the message layer sealed inside the packet layer, never
the messageLayer field of the bundle. -/
theorem tamper_messageLayer_undetected :
    (decryptMessageDualLayer
      { encryptMessageDualLayer [1, 2, 3] [9] [7] [4] 0 [5] [6] 42 with
        messageLayer :=
          { (encryptMessageDualLayer [1, 2, 3] [9] [7] [4] 0 [5] [6] 42).messageLayer with
            ciphertext :=
              flipBit (encryptMessageDualLayer [1, 2, 3] [9] [7] [4] 0
                [5] [6] 42).messageLayer.ciphertext 0 0 } }
      [9] [4]).isValid = true ∧
    flipBit (encryptMessageDualLayer [1, 2, 3] [9] [7] [4] 0
        [5] [6] 42).messageLayer.ciphertext 0 0 ≠
      (encryptMessageDualLayer [1, 2, 3] [9] [7] [4] 0 [5] [6] 42).messageLayer.ciphertext := by
  decide

/-- C2 (amended).  Flipping any single bit of the packetLayer ciphertext or of
the packetLayer authentication tag of a sealed bundle makes
decryptMessageDualLayer return isValid false; bits of the messageLayer field
of the bundle are not covered, since decryption never reads that field. -/
theorem tamper_packet_layer_detected (e : DualLayerEncryptedMessage)
    (plaintext sharedSecret senderPublicKey packetKey : List Nat) (packetId : Nat)
    (nonce iv : List Nat) (timestamp : Nat) (i j : Nat)
    (he : e = encryptMessageDualLayer plaintext sharedSecret senderPublicKey packetKey
      packetId nonce iv timestamp) :
    (i < e.packetLayer.ciphertext.length →
      (decryptMessageDualLayer
        { e with packetLayer :=
            { e.packetLayer with ciphertext := flipBit e.packetLayer.ciphertext i j } }
        sharedSecret packetKey).isValid = false) ∧
    (decryptMessageDualLayer
      { e with packetLayer :=
          { e.packetLayer with authTag := e.packetLayer.authTag ^^^ 2 ^ j } }
      sharedSecret packetKey).isValid = false := by
  subst he
  constructor
  · intro hi
    simp only [encryptMessageDualLayer, encryptPacketLayer, gcmEnc] at hi ⊢
    simp only [decryptMessageDualLayer, decryptPacketLayer, gcmDec,
      gcmTag_flipBit _ _ _ _ _ hi]
    rw [if_neg (xor_two_pow_ne _ j)]
  · simp only [encryptMessageDualLayer, encryptPacketLayer, gcmEnc]
    simp only [decryptMessageDualLayer, decryptPacketLayer, gcmDec]
    rw [if_neg (fun h => xor_two_pow_ne _ j h.symm)]

/-- C2 (amended) witness: a concrete bundle with a concrete bit flipped in the
packetLayer ciphertext decrypts to isValid false. -/
theorem tamper_packet_layer_detected_witness :
    (0 < (encryptMessageDualLayer [1] [2] [3] [4] 0 [5] [6] 7).packetLayer.ciphertext.length) ∧
    (decryptMessageDualLayer
      { encryptMessageDualLayer [1] [2] [3] [4] 0 [5] [6] 7 with
        packetLayer :=
          { (encryptMessageDualLayer [1] [2] [3] [4] 0 [5] [6] 7).packetLayer with
            ciphertext :=
              flipBit (encryptMessageDualLayer [1] [2] [3] [4] 0
                [5] [6] 7).packetLayer.ciphertext 0 0 } }
      [2] [4]).isValid = false :=
  ⟨by decide,
   (tamper_packet_layer_detected _ [1] [2] [3] [4] 0 [5] [6] 7 0 0 rfl).1 (by decide)⟩

/-- C3.  The bundle returned by encryptMessageDualLayer carries the message
layer in the clear, so the shared secret alone recovers the plaintext:
decryptWithSharedSecretOnly reads only the messageLayer field and the shared
secret, no packet key enters, yet it returns the plaintext of every sealed
bundle.  This contradicts the defense-in-depth property claimed by the
specification and by the module documentation itself. -/
theorem shared_secret_alone_recovers_plaintext
    (plaintext sharedSecret senderPublicKey packetKey : List Nat) (packetId : Nat)
    (nonce iv : List Nat) (timestamp : Nat) :
    decryptWithSharedSecretOnly
      (encryptMessageDualLayer plaintext sharedSecret senderPublicKey packetKey
        packetId nonce iv timestamp)
      sharedSecret = some plaintext := by
  simp [decryptWithSharedSecretOnly, encryptMessageDualLayer, encryptMessageLayer,
    decryptMessageLayer, gcmDec_gcmEnc]

/-- C4.  decryptMessageDualLayer is total and error-signalling: on every bundle
and key material it either succeeds, or returns the empty plaintext together
with isValid false; every failure of either layer or of the intermediate
parse lands in the failure record. -/
theorem open_total_error_signalling (encrypted : DualLayerEncryptedMessage)
    (sharedSecret packetKey : List Nat) :
    (decryptMessageDualLayer encrypted sharedSecret packetKey).isValid = true ∨
    ((decryptMessageDualLayer encrypted sharedSecret packetKey).isValid = false ∧
     (decryptMessageDualLayer encrypted sharedSecret packetKey).plaintext = []) := by
  cases hp : decryptPacketLayer encrypted.packetLayer.ciphertext encrypted.packetLayer.iv
      encrypted.packetLayer.authTag packetKey with
  | none => simp [decryptMessageDualLayer, hp]
  | some j =>
    cases hd : decodeMessageLayer j with
    | none => simp [decryptMessageDualLayer, hp, hd]
    | some ml =>
      cases hm : decryptMessageLayer ml.ciphertext ml.nonce ml.authTag sharedSecret with
      | none => simp [decryptMessageDualLayer, hp, hd, hm]
      | some pt => simp [decryptMessageDualLayer, hp, hd, hm]

/-! ## Supporting lemmas for the message store -/

theorem find?_ext {α : Type} (l : List α) (p q : α → Bool) (h : ∀ a, p a = q a) :
    l.find? p = l.find? q := by
  induction l with
  | nil => rfl
  | cons a l ih => simp only [List.find?_cons, h a, ih]

theorem find?_map_preserve {α : Type} (p : α → Bool) (g : α → α) (l : List α)
    (hg : ∀ a, p (g a) = p a) (x : α) (h : l.find? p = some x) :
    (l.map g).find? p = some (g x) := by
  induction l with
  | nil => simp at h
  | cons a l ih =>
    simp only [List.find?_cons] at h
    simp only [List.map_cons, List.find?_cons, hg a]
    cases hpa : p a with
    | true =>
      rw [hpa] at h
      simp only [Option.some.injEq] at h
      subst h
      simp
    | false =>
      rw [hpa] at h
      simpa using ih h

theorem getConversationId_symm (s : MessageStore) (u c : String) :
    s.getConversationId u c = s.getConversationId c u := by
  unfold MessageStore.getConversationId
  rw [find?_ext s.conversations _ _ (fun conv => Bool.or_comm _ _)]

theorem getConversationId_after_create (s : MessageStore) (u c : String) (now : Nat) :
    (s.getOrCreateConversation u c now).2.getConversationId u c =
      some (s.getOrCreateConversation u c now).1 := by
  unfold MessageStore.getOrCreateConversation
  cases h : s.getConversationId u c with
  | some cid => simpa using h
  | none =>
    simp only
    unfold MessageStore.getConversationId at h ⊢
    have hfind : s.conversations.find?
        (fun conv => (conv.userId == u && conv.contactId == c) ||
                     (conv.userId == c && conv.contactId == u)) = none := by
      cases hf : s.conversations.find?
          (fun conv => (conv.userId == u && conv.contactId == c) ||
                       (conv.userId == c && conv.contactId == u)) with
      | none => rfl
      | some conv => rw [hf] at h; simp at h
    rw [List.find?_append, hfind, Option.none_or]
    simp

/-! ## Claims C5, C6, C10: the message store -/

/-- C5 counterexample.  The conversation id is not a canonical function of the
unordered participant pair: a store whose first call is in one argument order
produces a different id than a store whose first call is in the other order,
for the same unordered pair of identifiers. -/
theorem conversation_id_not_canonical :
    (emptyStore.getOrCreateConversation "a" "b" 0).1 ≠
      (emptyStore.getOrCreateConversation "b" "a" 0).1 := by
  decide

/-- C5 (amended).  On one store, once getOrCreateConversation has run for a
pair, every later call in either argument order returns the very same id and
leaves the store untouched (so no second entry for the unordered pair is ever
created, and one call adds at most one entry); the id itself is the
concatenation userId:contactId in the argument order of the creating call,
not a canonically sorted function of the unordered pair. -/
theorem getOrCreateConversation_idempotent (s : MessageStore) (u c : String)
    (now now2 : Nat) :
    (s.getOrCreateConversation u c now).2.getOrCreateConversation c u now2 =
        s.getOrCreateConversation u c now ∧
    (s.getOrCreateConversation u c now).2.getOrCreateConversation u c now2 =
        s.getOrCreateConversation u c now ∧
    (s.getOrCreateConversation u c now).2.conversations.length ≤
        s.conversations.length + 1 := by
  refine ⟨?_, ?_, ?_⟩
  · conv_lhs => rw [MessageStore.getOrCreateConversation]
    rw [getConversationId_symm, getConversationId_after_create]
  · conv_lhs => rw [MessageStore.getOrCreateConversation]
    rw [getConversationId_after_create]
  · unfold MessageStore.getOrCreateConversation
    cases h : s.getConversationId u c with
    | some cid => simp
    | none => simp

/-- C6 counterexample.  delivered is not a terminal state: updateDeliveryStatus
moves a delivered message straight back to pending. -/
theorem delivered_not_terminal :
    ((MessageStore.mk [⟨"m", "c", "s", "r", "hi", "h", 0, false, .delivered, "e", "n"⟩]
        [] []).findMessage "m").map (fun m => m.deliveryStatus) =
      some DeliveryStatus.delivered ∧
    (((MessageStore.mk [⟨"m", "c", "s", "r", "hi", "h", 0, false, .delivered, "e", "n"⟩]
        [] []).updateDeliveryStatus "m" .pending).findMessage "m").map
        (fun m => m.deliveryStatus) =
      some DeliveryStatus.pending := by
  decide

/-- C6 (amended).  updateDeliveryStatus applies the given status to an
existing message unconditionally, whatever its current status: the store
enforces no terminal states. -/
theorem updateDeliveryStatus_sets_unconditionally (s : MessageStore) (messageId : String)
    (status : DeliveryStatus) (m : Message) (h : s.findMessage messageId = some m) :
    (s.updateDeliveryStatus messageId status).findMessage messageId =
      some { m with deliveryStatus := status } := by
  unfold MessageStore.findMessage at h ⊢
  unfold MessageStore.updateDeliveryStatus
  rw [h]
  simp only
  have hid : (m.id == messageId) = true := by
    have h2 := List.find?_some h
    simpa using h2
  have hmap := find?_map_preserve (fun x => x.id == messageId)
    (fun x => if x.id == messageId then { x with deliveryStatus := status } else x)
    s.messages (fun a => by by_cases ha : (a.id == messageId) = true <;> simp [ha]) m h
  rw [hmap]
  simp [hid]

/-- C6 (amended) witness: a concrete delivered message is set to pending. -/
theorem updateDeliveryStatus_sets_unconditionally_witness :
    (MessageStore.mk [⟨"w", "c", "s", "r", "hi", "h", 0, false, .delivered, "e", "n"⟩]
        [] []).findMessage "w" =
      some ⟨"w", "c", "s", "r", "hi", "h", 0, false, .delivered, "e", "n"⟩ ∧
    ((MessageStore.mk [⟨"w", "c", "s", "r", "hi", "h", 0, false, .delivered, "e", "n"⟩]
        [] []).updateDeliveryStatus "w" .pending).findMessage "w" =
      some ⟨"w", "c", "s", "r", "hi", "h", 0, false, .pending, "e", "n"⟩ :=
  ⟨by decide,
   updateDeliveryStatus_sets_unconditionally
     (MessageStore.mk [⟨"w", "c", "s", "r", "hi", "h", 0, false, .delivered, "e", "n"⟩] [] [])
     "w" .pending ⟨"w", "c", "s", "r", "hi", "h", 0, false, .delivered, "e", "n"⟩ (by decide)⟩

/-- C10.  Calling markAsRead or updateDeliveryStatus with a messageId absent
from the store returns the store unchanged: no error, no new record, every
stored message and conversation untouched. -/
theorem unknown_id_noop (s : MessageStore) (messageId : String) (status : DeliveryStatus)
    (h : s.findMessage messageId = none) :
    s.markAsRead messageId = s ∧ s.updateDeliveryStatus messageId status = s := by
  unfold MessageStore.findMessage at h
  constructor
  · unfold MessageStore.markAsRead
    rw [h]
  · unfold MessageStore.updateDeliveryStatus
    rw [h]

/-- C10 witness: the empty store is unchanged by both operations on an
unknown id. -/
theorem unknown_id_noop_witness :
    emptyStore.findMessage "x" = none ∧
    (emptyStore.markAsRead "x" = emptyStore ∧
     emptyStore.updateDeliveryStatus "x" .pending = emptyStore) :=
  ⟨by decide, unknown_id_noop emptyStore "x" .pending (by decide)⟩

/-! ## Supporting lemmas for the network -/

theorem attemptDelivery_cases (net : EnhancedP2PNetwork) (m : NetworkMessage) (now : Nat) :
    (net.attemptDelivery m now).1 = net ∨
    ∃ (d : String) (p : String × Tracking), m.deliveryId = some d ∧
      net.deliveryTracking.find? (fun e => e.1 == d) = some p ∧
      p.2.attempts < net.maxRetries ∧
      (net.attemptDelivery m now).1 =
        { net with deliveryTracking := updateTracking net.deliveryTracking d now } := by
  unfold EnhancedP2PNetwork.attemptDelivery
  cases hm : m.deliveryId with
  | none => simp
  | some d =>
    simp only
    cases hf : net.deliveryTracking.find? (fun e => e.1 == d) with
    | none => simp
    | some p =>
      simp only
      by_cases hle : net.maxRetries ≤ p.2.attempts
      · left
        simp [hle]
      · right
        exact ⟨d, p, rfl, hf, by omega, by simp [hle]⟩

theorem map_fst_update (l : List (String × Tracking)) (d : String) (now : Nat) :
    (updateTracking l d now).map Prod.fst = l.map Prod.fst := by
  induction l with
  | nil => rfl
  | cons x l ih =>
    simp only [updateTracking, List.map_cons] at ih ⊢
    by_cases hx : (x.1 == d) = true
    · rw [if_pos hx]
      simp [ih]
      intro a b _
      split <;> rfl
    · rw [if_neg hx]
      simp [ih]
      intro a b _
      split <;> rfl

theorem attemptDelivery_queue (net : EnhancedP2PNetwork) (m : NetworkMessage) (now : Nat) :
    (net.attemptDelivery m now).1.messageQueue = net.messageQueue := by
  rcases attemptDelivery_cases net m now with h | ⟨d, p, _, _, _, h⟩ <;> simp [h]

theorem attemptDelivery_peers (net : EnhancedP2PNetwork) (m : NetworkMessage) (now : Nat) :
    (net.attemptDelivery m now).1.peers = net.peers := by
  rcases attemptDelivery_cases net m now with h | ⟨d, p, _, _, _, h⟩ <;> simp [h]

theorem attemptDelivery_maxRetries (net : EnhancedP2PNetwork) (m : NetworkMessage)
    (now : Nat) : (net.attemptDelivery m now).1.maxRetries = net.maxRetries := by
  rcases attemptDelivery_cases net m now with h | ⟨d, p, _, _, _, h⟩ <;> simp [h]

theorem attemptDelivery_tracking_length (net : EnhancedP2PNetwork) (m : NetworkMessage)
    (now : Nat) :
    (net.attemptDelivery m now).1.deliveryTracking.length = net.deliveryTracking.length := by
  rcases attemptDelivery_cases net m now with h | ⟨d, p, _, _, _, h⟩ <;>
    simp [h, updateTracking]

theorem attemptDelivery_keys (net : EnhancedP2PNetwork) (m : NetworkMessage) (now : Nat) :
    (net.attemptDelivery m now).1.deliveryTracking.map Prod.fst =
      net.deliveryTracking.map Prod.fst := by
  rcases attemptDelivery_cases net m now with h | ⟨d, p, _, _, _, h⟩ <;>
    simp [h, map_fst_update]

/-- In a list with pairwise distinct keys, any member whose key satisfies the
search is the entry find? returns. -/
theorem mem_unique_key (d : String) (p a : String × Tracking) :
    ∀ l : List (String × Tracking), (l.map Prod.fst).Nodup →
      l.find? (fun e => e.1 == d) = some p → a ∈ l → (a.1 == d) = true → a = p := by
  intro l
  induction l with
  | nil => intro _ _ ha _; simp at ha
  | cons x l ih =>
    intro hnd hp ha had
    rw [List.find?_cons] at hp
    simp only [List.map_cons, List.nodup_cons] at hnd
    cases hx : (x.1 == d) with
    | true =>
      rw [hx] at hp
      simp only [Option.some.injEq] at hp
      rcases List.mem_cons.mp ha with rfl | ha2
      · exact hp
      · exfalso
        apply hnd.1
        have h1 : a.1 = d := by simpa using had
        have h2 : a.1 = x.1 := by
          have h3 : x.1 = d := by simpa using hx
          rw [h1, h3]
        rw [← h2]
        exact List.mem_map.mpr ⟨a, ha2, rfl⟩
    | false =>
      rw [hx] at hp
      rcases List.mem_cons.mp ha with rfl | ha2
      · rw [had] at hx; cases hx
      · exact ih hnd.2 hp ha2 had

theorem attemptDelivery_bound (net : EnhancedP2PNetwork) (m : NetworkMessage) (now : Nat)
    (hnd : (net.deliveryTracking.map Prod.fst).Nodup)
    (h : ∀ e ∈ net.deliveryTracking, e.2.attempts ≤ net.maxRetries) :
    ∀ e ∈ (net.attemptDelivery m now).1.deliveryTracking,
      e.2.attempts ≤ net.maxRetries := by
  rcases attemptDelivery_cases net m now with hc | ⟨d, p, _, hfind, hlt, hc⟩
  · rw [hc]; exact h
  · rw [hc]
    intro e he
    simp only [updateTracking, List.mem_map] at he
    obtain ⟨a, ha, rfl⟩ := he
    by_cases had : (a.1 == d) = true
    · have hap : a = p := mem_unique_key d p a net.deliveryTracking hnd hfind ha had
      subst hap
      rw [if_pos had]
      exact hlt
    · rw [if_neg had]
      exact h a ha

theorem runAttempts_bound (calls : List (NetworkMessage × Nat)) :
    ∀ net : EnhancedP2PNetwork, (net.deliveryTracking.map Prod.fst).Nodup →
      (∀ e ∈ net.deliveryTracking, e.2.attempts ≤ net.maxRetries) →
      ∀ e ∈ (net.runAttempts calls).deliveryTracking,
        e.2.attempts ≤ net.maxRetries := by
  induction calls with
  | nil => intro net _ h; exact h
  | cons c calls ih =>
    intro net hnd h
    have hstep : (net.runAttempts (c :: calls)) =
        ((net.attemptDelivery c.1 c.2).1.runAttempts calls) := rfl
    rw [hstep]
    have hM := attemptDelivery_maxRetries net c.1 c.2
    have hnd2 : ((net.attemptDelivery c.1 c.2).1.deliveryTracking.map Prod.fst).Nodup := by
      rw [attemptDelivery_keys]; exact hnd
    have h2 : ∀ e ∈ (net.attemptDelivery c.1 c.2).1.deliveryTracking,
        e.2.attempts ≤ (net.attemptDelivery c.1 c.2).1.maxRetries := by
      rw [hM]; exact attemptDelivery_bound net c.1 c.2 hnd h
    intro e he
    have := ih (net.attemptDelivery c.1 c.2).1 hnd2 h2 e he
    rwa [hM] at this

/-! ## Claim C7: the delivery retry bound -/

/-- C7.  One delivery attempt below the budget increments the attempt counter
by exactly one and emits the delivery event; an attempt at or beyond the
budget emits the failure event and changes nothing, so no further attempt ever
increments it; consequently, along any sequence of delivery attempts starting
from records within the budget, every attempts counter stays at most
maxRetries + 1 (the code in fact caps it at maxRetries, failing as soon as
attempts reaches maxRetries rather than strictly exceeding it). -/
theorem delivery_retry_bound (net : EnhancedP2PNetwork) (message : NetworkMessage)
    (now : Nat) (deliveryId : String) (t : Tracking) :
    (message.deliveryId = some deliveryId →
      net.deliveryTracking.find? (fun e => e.1 == deliveryId) = some (deliveryId, t) →
      t.attempts < net.maxRetries →
      (net.attemptDelivery message now).1.deliveryTracking.find?
          (fun e => e.1 == deliveryId) = some (deliveryId, ⟨t.attempts + 1, now⟩) ∧
      (net.attemptDelivery message now).2 =
        [.messageDelivered message.id deliveryId]) ∧
    (message.deliveryId = some deliveryId →
      net.deliveryTracking.find? (fun e => e.1 == deliveryId) = some (deliveryId, t) →
      net.maxRetries ≤ t.attempts →
      net.attemptDelivery message now = (net, [.messageFailed message.id])) ∧
    (∀ calls : List (NetworkMessage × Nat),
      (net.deliveryTracking.map Prod.fst).Nodup →
      (∀ e ∈ net.deliveryTracking, e.2.attempts ≤ net.maxRetries) →
      ∀ e ∈ (net.runAttempts calls).deliveryTracking,
        e.2.attempts ≤ net.maxRetries + 1) := by
  refine ⟨?_, ?_, ?_⟩
  · intro hm hfind hlt
    have hres : net.attemptDelivery message now =
        ({ net with deliveryTracking := updateTracking net.deliveryTracking deliveryId now },
         [.messageDelivered message.id deliveryId]) := by
      unfold EnhancedP2PNetwork.attemptDelivery
      rw [hm]
      simp only
      rw [hfind]
      simp [Nat.not_le.mpr hlt]
    rw [hres]
    constructor
    · have hmap := find?_map_preserve (fun e => e.1 == deliveryId)
        (fun e => if e.1 == deliveryId then (e.1, ⟨e.2.attempts + 1, now⟩) else e)
        net.deliveryTracking
        (fun a => by by_cases hae : (a.1 == deliveryId) = true <;> simp [hae])
        (deliveryId, t) hfind
      simp only [updateTracking]
      rw [hmap]
      simp
    · rfl
  · intro hm hfind hge
    unfold EnhancedP2PNetwork.attemptDelivery
    rw [hm]
    simp only
    rw [hfind]
    simp [hge]
  · intro calls hnd h e he
    exact Nat.le_succ_of_le (runAttempts_bound calls net hnd h e he)

/-- C7 witness: a concrete tracking record below the budget is incremented with
the delivery event; one at the budget is left unchanged with the failure
event; a concrete run keeps the counter within maxRetries + 1. -/
theorem delivery_retry_bound_witness :
    ((EnhancedP2PNetwork.mk "me" 3 [] [] [("d", ⟨0, 0⟩)]).attemptDelivery
        ⟨"i", .direct, "me", "p", "x", 0, 0, true, some "d"⟩ 5).1.deliveryTracking.find?
        (fun e => e.1 == "d") = some ("d", ⟨1, 5⟩) ∧
    ((EnhancedP2PNetwork.mk "me" 3 [] [] [("d", ⟨3, 0⟩)]).attemptDelivery
        ⟨"i", .direct, "me", "p", "x", 0, 0, true, some "d"⟩ 5 =
      (EnhancedP2PNetwork.mk "me" 3 [] [] [("d", ⟨3, 0⟩)],
        [.messageFailed "i"])) ∧
    ("d", Tracking.mk 1 5).2.attempts ≤ 3 + 1 :=
  ⟨((delivery_retry_bound (EnhancedP2PNetwork.mk "me" 3 [] [] [("d", ⟨0, 0⟩)])
      ⟨"i", .direct, "me", "p", "x", 0, 0, true, some "d"⟩ 5 "d" ⟨0, 0⟩).1
      rfl (by decide) (by decide)).1,
   (delivery_retry_bound (EnhancedP2PNetwork.mk "me" 3 [] [] [("d", ⟨3, 0⟩)])
      ⟨"i", .direct, "me", "p", "x", 0, 0, true, some "d"⟩ 5 "d" ⟨3, 0⟩).2.1
      rfl (by decide) (by decide),
   (delivery_retry_bound (EnhancedP2PNetwork.mk "me" 3 [] [] [("d", ⟨0, 0⟩)])
      ⟨"i", .direct, "me", "p", "x", 0, 0, true, some "d"⟩ 5 "d" ⟨0, 0⟩).2.2
      [(⟨"i", .direct, "me", "p", "x", 0, 0, true, some "d"⟩, 5)]
      (by decide) (by decide) ("d", Tracking.mk 1 5) (by decide)⟩

/-! ## Supporting lemmas for broadcast relaying -/

theorem relay_mem_spec (net : EnhancedP2PNetwork) (m m2 : NetworkMessage) (tgt : String)
    (h : NetEvent.messageRelay m2 tgt ∈ net.receiveMessage m) :
    m2 = { m with ttl := m.ttl - 1 } ∧ 0 < m.ttl ∧ tgt ≠ m.«from» ∧
      m.type = .broadcast := by
  unfold EnhancedP2PNetwork.receiveMessage at h
  by_cases h1 : (m.«to» != net.myPeerId && m.type != MsgType.broadcast) = true
  · rw [if_pos h1] at h
    simp at h
  · rw [if_neg h1] at h
    rcases List.mem_cons.mp h with heq | hmem
    · exact absurd heq (by simp)
    · by_cases h2 : (m.type == MsgType.broadcast && decide (0 < m.ttl)) = true
      · rw [if_pos h2] at hmem
        unfold EnhancedP2PNetwork.relayBroadcast at hmem
        simp only [List.mem_map] at hmem
        obtain ⟨p, hp, he⟩ := hmem
        simp only [NetEvent.messageRelay.injEq] at he
        simp only [Bool.and_eq_true, beq_iff_eq, decide_eq_true_eq] at h2
        have hpf := List.mem_filter.mp hp
        refine ⟨he.1.symm, h2.2, ?_, h2.1⟩
        intro hc
        rw [← he.2] at hc
        simp [hc] at hpf
      · rw [if_neg h2] at hmem
        simp at hmem

theorem relayStep_ttl {m m2 : NetworkMessage} (h : RelayStep m m2) :
    0 < m.ttl ∧ m2.ttl = m.ttl - 1 := by
  obtain ⟨net, tgt, hmem⟩ := h
  have hs := relay_mem_spec net m m2 tgt hmem
  refine ⟨hs.2.1, ?_⟩
  rw [hs.1]

theorem relayChain_le : ∀ (k : Nat) (m m2 : NetworkMessage),
    RelayChain k m m2 → k ≤ m.ttl := by
  intro k
  induction k with
  | zero => intro m m2 _; exact Nat.zero_le _
  | succ k ih =>
    intro m m2 hc
    obtain ⟨mid, hs, hrest⟩ := hc
    have h1 := relayStep_ttl hs
    have h2 := ih mid m2 hrest
    omega

theorem relay_iff (net : EnhancedP2PNetwork) (m : NetworkMessage) :
    ((net.receiveMessage m).filter NetEvent.isRelay ≠ []) ↔
      (m.type = .broadcast ∧ 0 < m.ttl ∧
        net.getOnlinePeers.filter (fun p => p.id != m.«from») ≠ []) := by
  unfold EnhancedP2PNetwork.receiveMessage
  by_cases hb : m.type = MsgType.broadcast
  · have h1 : (m.«to» != net.myPeerId && m.type != MsgType.broadcast) = false := by
      simp [hb]
    rw [h1]
    by_cases ht : 0 < m.ttl
    · have h2 : (m.type == MsgType.broadcast && decide (0 < m.ttl)) = true := by
        simp [hb, ht]
      rw [h2]
      simp [EnhancedP2PNetwork.relayBroadcast, NetEvent.isRelay, List.filter_map, hb, ht]
    · have h2 : (m.type == MsgType.broadcast && decide (0 < m.ttl)) = false := by
        simp [hb, ht]
      rw [h2]
      simp [NetEvent.isRelay, hb, ht]
  · have hbne : (m.type == MsgType.broadcast) = false := by simp [hb]
    by_cases hto : (m.«to» != net.myPeerId) = true
    · rw [if_pos (by simp [hto, hb])]
      simp [hb]
    · rw [if_neg (by simp [hto])]
      simp [NetEvent.isRelay, hbne, hb]

/-! ## Claims C8 and C9: broadcast relaying and direct send -/

/-- C8 counterexample.  A broadcast received with ttl 1 is relayed even though
the decremented ttl is 0: the code gates relaying on the incoming ttl being
positive, not on the decremented ttl being positive. -/
theorem relay_rule_claim_false :
    ((EnhancedP2PNetwork.mk "me" 3 [⟨"p", "pk", .online, 0⟩] [] []).receiveMessage
        ⟨"b1", .broadcast, "q", "broadcast", "x", 0, 1, true, none⟩).filter
        NetEvent.isRelay ≠ [] ∧
    ¬ 0 < (NetworkMessage.mk "b1" .broadcast "q" "broadcast" "x" 0 1 true none).ttl - 1 := by
  decide

/-- C8 (amended).  A received envelope produces relay emissions exactly when it
is a broadcast with positive incoming ttl and an online peer other than the
original sender exists; every relayed copy is the same envelope with ttl
decremented by one, addressed away from the original sender; consequently a
broadcast originated with ttl 3 undergoes at most 3 successive relays (the
last relayed copies carry ttl 0 and travel one further hop before dying). -/
theorem broadcast_relay_rule (net : EnhancedP2PNetwork) (m m2 m3 mlast : NetworkMessage)
    (tgt : String) (k : Nat) :
    (((net.receiveMessage m).filter NetEvent.isRelay ≠ []) ↔
      (m.type = .broadcast ∧ 0 < m.ttl ∧
        net.getOnlinePeers.filter (fun p => p.id != m.«from») ≠ [])) ∧
    (NetEvent.messageRelay m2 tgt ∈ net.receiveMessage m →
      m2 = { m with ttl := m.ttl - 1 } ∧ 0 < m.ttl ∧ tgt ≠ m.«from») ∧
    (m3.ttl = 3 → RelayChain k m3 mlast → k ≤ 3) := by
  refine ⟨relay_iff net m, ?_, ?_⟩
  · intro h
    have hs := relay_mem_spec net m m2 tgt h
    exact ⟨hs.1, hs.2.1, hs.2.2.1⟩
  · intro h3 hchain
    have := relayChain_le k m3 mlast hchain
    omega

/-- C8 (amended) witness: a concrete relay emission carries ttl decremented,
and a concrete 3-step relay chain from a ttl 3 broadcast meets the bound. -/
theorem broadcast_relay_rule_witness :
    (NetworkMessage.mk "b3" .broadcast "q" "broadcast" "x" 0 2 true none =
        { NetworkMessage.mk "b3" .broadcast "q" "broadcast" "x" 0 3 true none with
          ttl := (NetworkMessage.mk "b3" .broadcast "q" "broadcast" "x" 0 3 true
            none).ttl - 1 } ∧
      0 < (NetworkMessage.mk "b3" .broadcast "q" "broadcast" "x" 0 3 true none).ttl ∧
      "p" ≠ (NetworkMessage.mk "b3" .broadcast "q" "broadcast" "x" 0 3 true
        none).«from») ∧
    3 ≤ 3 :=
  ⟨(broadcast_relay_rule (EnhancedP2PNetwork.mk "me" 3 [⟨"p", "pk", .online, 0⟩] [] [])
      (NetworkMessage.mk "b3" .broadcast "q" "broadcast" "x" 0 3 true none)
      (NetworkMessage.mk "b3" .broadcast "q" "broadcast" "x" 0 2 true none)
      (NetworkMessage.mk "b3" .broadcast "q" "broadcast" "x" 0 3 true none)
      (NetworkMessage.mk "b3" .broadcast "q" "broadcast" "x" 0 0 true none)
      "p" 3).2.1 (by decide),
   (broadcast_relay_rule (EnhancedP2PNetwork.mk "me" 3 [⟨"p", "pk", .online, 0⟩] [] [])
      (NetworkMessage.mk "b3" .broadcast "q" "broadcast" "x" 0 3 true none)
      (NetworkMessage.mk "b3" .broadcast "q" "broadcast" "x" 0 2 true none)
      (NetworkMessage.mk "b3" .broadcast "q" "broadcast" "x" 0 3 true none)
      (NetworkMessage.mk "b3" .broadcast "q" "broadcast" "x" 0 0 true none)
      "p" 3).2.2 rfl
     ⟨NetworkMessage.mk "b3" .broadcast "q" "broadcast" "x" 0 2 true none,
      ⟨EnhancedP2PNetwork.mk "me" 3 [⟨"p", "pk", .online, 0⟩] [] [], "p", by decide⟩,
      NetworkMessage.mk "b3" .broadcast "q" "broadcast" "x" 0 1 true none,
      ⟨EnhancedP2PNetwork.mk "me" 3 [⟨"p", "pk", .online, 0⟩] [] [], "p", by decide⟩,
      NetworkMessage.mk "b3" .broadcast "q" "broadcast" "x" 0 0 true none,
      ⟨EnhancedP2PNetwork.mk "me" 3 [⟨"p", "pk", .online, 0⟩] [] [], "p", by decide⟩,
      rfl⟩⟩

/-- C9 counterexample.  Sending to a peer absent from the peer directory does
not fail: the message is queued, a delivery-tracking record is created, the
immediate delivery attempt runs (no failure event), and no error of any kind
is surfaced. -/
theorem unknown_peer_send_succeeds :
    "ghost" ∉ (EnhancedP2PNetwork.mk "me" 3 [] [] []).peers.map (fun p => p.id) ∧
    ((EnhancedP2PNetwork.mk "me" 3 [] [] []).sendDirectMessage "ghost" "hi" true
        "mid" "did" 5).2.1.messageQueue.length = 1 ∧
    ((EnhancedP2PNetwork.mk "me" 3 [] [] []).sendDirectMessage "ghost" "hi" true
        "mid" "did" 5).2.1.deliveryTracking.length = 1 ∧
    NetEvent.messageFailed "mid" ∉
      ((EnhancedP2PNetwork.mk "me" 3 [] [] []).sendDirectMessage "ghost" "hi" true
        "mid" "did" 5).2.2 := by
  decide

/-- C9 (amended).  sendDirectMessage never consults the peer directory: even
for a recipient with no registered entry it queues exactly one new message,
creates exactly one new delivery-tracking record, leaves the directory
unchanged, and signals no unknown-peer error. -/
theorem sendDirectMessage_ignores_directory (net : EnhancedP2PNetwork)
    (toPeerId content : String) (encrypted : Bool) (messageId deliveryId : String)
    (now : Nat) (h : toPeerId ∉ net.peers.map (fun p => p.id)) :
    (net.sendDirectMessage toPeerId content encrypted messageId deliveryId
        now).2.1.messageQueue.length = net.messageQueue.length + 1 ∧
    (net.sendDirectMessage toPeerId content encrypted messageId deliveryId
        now).2.1.deliveryTracking.length = net.deliveryTracking.length + 1 ∧
    (net.sendDirectMessage toPeerId content encrypted messageId deliveryId
        now).2.1.peers = net.peers := by
  unfold EnhancedP2PNetwork.sendDirectMessage
  simp only
  refine ⟨?_, ?_, ?_⟩
  · rw [attemptDelivery_queue]
    simp
  · rw [attemptDelivery_tracking_length]
    simp
  · rw [attemptDelivery_peers]

/-- C9 (amended) witness: the empty directory instance. -/
theorem sendDirectMessage_ignores_directory_witness :
    ((EnhancedP2PNetwork.mk "me" 3 [] [] []).sendDirectMessage "ghost" "hi" true
        "mid" "did" 5).2.1.messageQueue.length =
      (EnhancedP2PNetwork.mk "me" 3 [] [] []).messageQueue.length + 1 ∧
    ((EnhancedP2PNetwork.mk "me" 3 [] [] []).sendDirectMessage "ghost" "hi" true
        "mid" "did" 5).2.1.deliveryTracking.length =
      (EnhancedP2PNetwork.mk "me" 3 [] [] []).deliveryTracking.length + 1 ∧
    ((EnhancedP2PNetwork.mk "me" 3 [] [] []).sendDirectMessage "ghost" "hi" true
        "mid" "did" 5).2.1.peers = (EnhancedP2PNetwork.mk "me" 3 [] [] []).peers :=
  sendDirectMessage_ignores_directory (EnhancedP2PNetwork.mk "me" 3 [] [] [])
    "ghost" "hi" true "mid" "did" 5 (by decide)

end P2PChatter
